import Mathlib

/-!
Shallow embedding of the SMIV orchestration layer
(`src/nnet_lib/src/arch/smiv.c`): tiling (work division), DMA-requirement
analysis, buffer alternation, and the convolution/inner-product invocation
protocols. Machine integers are modelled as `Nat` (the C code uses `unsigned`
and `int`; no computation here reaches 2^32 on the inputs the code accepts,
and where the C loop relies on not observing a wrapped value we mirror that
with truncated `Nat` subtraction, which agrees inside the loop). The numeric
kernels (`convolution3d_smiv`, `matrix_multiply_with_bias_smiv`,
`reduction_smiv`) are external collaborators and are abstracted as opaque-data
transformers or trace events.
-/

/-- `sizeof(float)` in the C source. -/
def sizeof_float : Nat := 4

/-- `#define SPAD_SIZE 131072` (bytes per scratchpad). -/
def SPAD_SIZE : Nat := 131072

/-- `#define UMEM_SIZE (3*1048576)` (bytes of unified buffer). -/
def UMEM_SIZE : Nat := 3 * 1048576

/-- Modelled from the spec: `DATA_ALIGNMENT` (header not under `src/`), the
SMIV data alignment in elements; its concrete value does not affect any claim
settled here. -/
def DATA_ALIGNMENT : Nat := 8

/-- `dims_t`: rows, cols, channels (height), alignment padding. -/
structure dims_t where
  rows : Nat
  cols : Nat
  height : Nat
  align_pad : Nat
deriving DecidableEq

/-- Activation kinds (`activation_type` in `nnet_fwd.h`, not under `src/`;
only `NONE` and `SIGMOID` are inspected by this core). -/
inductive activation_type
  | NONE
  | RELU
  | SIGMOID
  | TANH
deriving DecidableEq

/-- Layer kinds (`layer_type` in `nnet_fwd.h`, not under `src/`; the core
inspects `CONV`, `POOLING`, `FC` and `SOFTMAX`). -/
inductive layer_type
  | INPUT
  | CONV
  | POOLING
  | FC
  | SOFTMAX
deriving DecidableEq

/-- Input-preprocessing kinds (`input_pp` in `nnet_fwd.h`, not under `src/`). -/
inductive input_pp
  | NO_PREPROCESSING
  | FLATTEN
  | UNFLATTEN
deriving DecidableEq

/-- Pooling kinds. -/
inductive pool_type
  | MAX_POOL
  | AVG_POOL
deriving DecidableEq

/-- `layer_t`: the layer descriptor fields this core reads or writes. -/
structure layer_t where
  type : layer_type
  activation : activation_type
  input_preprocessing : input_pp
  pool : pool_type
  inputs : dims_t
  outputs : dims_t
  weights : dims_t
  c_padding : Nat
  needs_input_dma_load : Bool
  needs_output_dma_store : Bool
  result_in_temp : Bool
deriving DecidableEq

/-- Modelled from the spec: `calc_padding(location, alignment)` from
`utility/utility.c` (not under `src/`): the padding that rounds `location`
up to a multiple of `alignment` (0 when alignment is 0 or it already is). -/
def calc_padding (location alignment : Nat) : Nat :=
  if alignment = 0 || location % alignment = 0 then 0
  else alignment - location % alignment

/-- Modelled from the spec: `INPUT_BYTES(layers, lnum) / NUM_TEST_CASES`, the
single-image input footprint in bytes: `inputs.rows * (inputs.cols +
inputs.align_pad) * inputs.height * sizeof(float)` (the `NUM_TEST_CASES`
factor of `INPUT_BYTES` cancels against the division in the C source). -/
def total_input_bytes (l : layer_t) : Nat :=
  l.inputs.rows * (l.inputs.cols + l.inputs.align_pad) * l.inputs.height *
    sizeof_float

/-- The unreduced output footprint for a single output channel (kernel):
`outputs.rows * (outputs.cols + outputs.align_pad) * inputs.height *
sizeof(float)` (`convolution_divide_work`, smiv.c:178-181). -/
def total_output_bytes (l : layer_t) : Nat :=
  l.outputs.rows * (l.outputs.cols + l.outputs.align_pad) * l.inputs.height *
    sizeof_float

/-- `output_channel_size` (smiv.c:201-204): bytes of one unreduced output
channel. -/
def output_channel_size (l : layer_t) : Nat :=
  l.outputs.rows * (l.outputs.cols + l.outputs.align_pad) * sizeof_float

/-- `max_channels_per_iter = SPAD_SIZE / output_channel_size` (smiv.c:207). -/
def max_channels_per_iter (l : layer_t) : Nat :=
  SPAD_SIZE / output_channel_size l

/-- `ceil((float)input_channels / max_channels_per_iter)` (smiv.c:210-211),
embedded as the exact natural ceiling (the C float division is exact on the
magnitudes the enclosing checks admit). -/
def num_tiling_iterations (l : layer_t) : Nat :=
  (l.inputs.height + max_channels_per_iter l - 1) / max_channels_per_iter l

/-- The channel-tiling loop of `convolution_divide_work` (smiv.c:215-223):
`n` iterations remain, `total_channels` is the running channel budget, each
entry covers `min(total_channels, maxch)` channels and the budget drops by
`maxch`. The C `total_channels` is `unsigned` and would wrap after the last
subtraction; the loop never reads a wrapped value, so truncated `Nat`
subtraction is faithful. -/
def tiling_loop (l : layer_t) (maxch : Nat) : Nat → Nat → List dims_t
  | 0, _ => []
  | n + 1, total_channels =>
      { rows := l.inputs.rows
        cols := l.inputs.cols
        height := min total_channels maxch
        align_pad := calc_padding l.inputs.cols DATA_ALIGNMENT } ::
      tiling_loop l maxch n (total_channels - maxch)

/-- `conv_cfg_t`: the iteration plan (`num_iterations` is the list length). -/
structure conv_cfg_t where
  iteration : List dims_t
deriving DecidableEq

/-- The configuration errors of smiv.c, each an `assert(false)` site. -/
inductive config_error
  | UmemOverflow          -- smiv.c:182-186: single input image exceeds UMEM
  | SpadTilingUnsupported -- smiv.c:231: fewer than 2 channels fit a scratchpad
  | MultiRoundReduction   -- smiv.c:308: more than one final reduction round
deriving DecidableEq

deriving instance DecidableEq for Except

/-- `convolution_divide_work` (smiv.c:174-233): check the single-image input
against UMEM, return one full iteration when the unreduced output fits one
scratchpad, otherwise tile the channel axis when at least two unreduced
channels fit, and fail otherwise. -/
def convolution_divide_work (l : layer_t) : Except config_error conv_cfg_t :=
  if total_input_bytes l > UMEM_SIZE then
    .error .UmemOverflow
  else if total_output_bytes l ≤ SPAD_SIZE then
    .ok { iteration := [{ rows := l.inputs.rows
                          cols := l.inputs.cols
                          height := l.inputs.height
                          align_pad := calc_padding l.inputs.cols DATA_ALIGNMENT }] }
  else if max_channels_per_iter l ≥ 2 then
    .ok { iteration := tiling_loop l (max_channels_per_iter l)
                         (num_tiling_iterations l) l.inputs.height }
  else
    .error .SpadTilingUnsupported

/-- The output-transfer rule of `set_dma_requirements` for a layer at index
`i > 0` (smiv.c:409-420). `next?` is `layers[i + 1]` when `i` is not the last
index; the C `||` short-circuits on `i == depth - 1` before reading it. -/
def needs_output_dma (depth i : Nat) (l : layer_t) (next? : Option layer_t) :
    Bool :=
  i == depth - 1 ||
  l.activation == .SIGMOID ||
  l.type == .POOLING ||
  l.type == .CONV ||
  l.input_preprocessing == .FLATTEN ||
  (match next? with
   | some nxt => nxt.type == .POOLING || nxt.type == .SOFTMAX
   | none => false)

/-- The loop body of `set_dma_requirements` (smiv.c:401-426), processing the
layers from index `i` with `prev_store` the previous layer's
`needs_output_dma_store`. Layer 0 never loads its input and always stores its
output; every other layer stores by `needs_output_dma` and loads exactly when
its predecessor stored. -/
def set_dma_go (depth : Nat) : Nat → Bool → List layer_t → List layer_t
  | _, _, [] => []
  | i, prev_store, l :: rest =>
      if i == 0 then
        { l with needs_input_dma_load := false, needs_output_dma_store := true }
          :: set_dma_go depth (i + 1) true rest
      else
        { l with needs_output_dma_store := needs_output_dma depth i l rest.head?,
                 needs_input_dma_load := prev_store }
          :: set_dma_go depth (i + 1) (needs_output_dma depth i l rest.head?) rest

/-- `set_dma_requirements` (smiv.c:400-434) as a pure pass over the network's
layer list (the C function mutates the array in place). -/
def set_dma_requirements (network : List layer_t) : List layer_t :=
  set_dma_go network.length 0 false network

/-- `result_2d_size = result_height * (result_width + result_pad)`
(smiv.c:246), in elements. -/
def result_2d_size (l : layer_t) : Nat :=
  l.outputs.rows * (l.outputs.cols + l.outputs.align_pad)

/-- `result_iter = ceil(result_2d_size * num_iterations / (float)SPAD_SIZE)`
(smiv.c:305-307), embedded as the exact natural ceiling. -/
def final_result_iters (l : layer_t) (num_iterations : Nat) : Nat :=
  (result_2d_size l * num_iterations + SPAD_SIZE - 1) / SPAD_SIZE

/-- The transient per-iteration layer descriptor built by `convolution_runner`
(smiv.c:281-287): a copy of the full layer with the three channel counts
replaced by this iteration's channel count, and the activation kept only when
the plan has exactly one iteration. -/
def make_partial_layer (curr : layer_t) (num_iterations : Nat)
    (iter_cfg : dims_t) : layer_t :=
  { curr with
    inputs := { curr.inputs with height := iter_cfg.height }
    outputs := { curr.outputs with height := iter_cfg.height }
    weights := { curr.weights with height := iter_cfg.height }
    activation := if num_iterations == 1 then curr.activation
                  else activation_type.NONE }

/-- One observable step of the convolution invocation protocol for a single
(image, kernel) pair: the convolution and reduction kernel invocations carry
the transient layer descriptor they receive, `FinalReduce` is one round of
the trailing reduction (smiv.c:317-325), `AssembleOutput` the `memcpy` into
the 4-D output tensor (smiv.c:327-328). -/
inductive conv_event
  | ConvInvoke (partial_layer : layer_t) (start_chan : Nat)
  | ReduceInvoke (partial_layer : layer_t)
  | FinalReduce (partial_layer : layer_t)
  | AssembleOutput
deriving DecidableEq

/-- The inner iteration loop of `convolution_runner` (smiv.c:271-299) for one
(image, kernel) pair: each plan entry yields a convolution invocation on the
transient partial layer at the running channel offset, then a reduction
invocation. -/
def conv_iter_loop (curr : layer_t) (num_iterations : Nat) :
    Nat → List dims_t → List conv_event
  | _, [] => []
  | start_chan, iter_cfg :: rest =>
      let pl := make_partial_layer curr num_iterations iter_cfg
      conv_event.ConvInvoke pl start_chan ::
      conv_event.ReduceInvoke pl ::
      conv_iter_loop curr num_iterations (start_chan + iter_cfg.height) rest

/-- The per-(image, kernel) body of `convolution_runner` (smiv.c:265-329):
run the iteration plan, then, when it has more than one iteration, require
exactly one final reduction round (`assert(result_iter == 1)`, smiv.c:308)
and run it on a descriptor whose input channel count is
`min(num_iterations, SPAD_SIZE / result_2d_size)` and whose output channel
count is 1; finish by assembling the kernel's 2-D slice into the output.
`final_reduce_layer` is the descriptor of the trailing round
(smiv.c:310-316): input channel count
`num_result_chans = min(num_iterations, SPAD_SIZE / result_2d_size)`, output
channel count 1. -/
def final_reduce_layer (curr : layer_t) (n : Nat) : layer_t :=
  { curr with
    inputs := { curr.inputs with
                height := min n (SPAD_SIZE / result_2d_size curr) }
    outputs := { curr.outputs with height := 1 } }

def conv_kernel_pass (curr : layer_t) (cfg : conv_cfg_t) :
    Except config_error (List conv_event) :=
  let n := cfg.iteration.length
  let iter_events := conv_iter_loop curr n 0 cfg.iteration
  if n > 1 then
    if final_result_iters curr n == 1 then
      .ok (iter_events ++
           (List.range (final_result_iters curr n)).map
             (fun _ => conv_event.FinalReduce (final_reduce_layer curr n)) ++
           [conv_event.AssembleOutput])
    else
      .error .MultiRoundReduction
  else
    .ok (iter_events ++ [conv_event.AssembleOutput])

/-- `convolution_runner` (smiv.c:235-333) at the protocol level: divide the
work, then run the identical per-(image, kernel) pass for every image and
every output kernel (`outputs.height` kernels per image). -/
def convolution_runner (num_test_cases : Nat) (l : layer_t) :
    Except config_error (List conv_event) :=
  (convolution_divide_work l).bind fun cfg =>
    (conv_kernel_pass l cfg).map fun tr =>
      (List.range (num_test_cases * l.outputs.height)).flatMap fun _ => tr

/-- The two scratchpads. -/
inductive spad_id
  | spad0
  | spad1
deriving DecidableEq

/-- The state update of `inner_product_layer`'s function-local static
`current_result_loc` (smiv.c:86-93): unset on the first call it becomes
`spad1`; afterwards it flips between the two scratchpads. -/
def next_result_loc : Option spad_id → spad_id
  | none => .spad1
  | some .spad0 => .spad1
  | some .spad1 => .spad0

/-- `current_result_loc` after `n` calls to `inner_product_layer` within one
process (it is `static`, so it persists across calls; `none` models the
initial `NULL`). -/
def ip_state : Nat → Option spad_id
  | 0 => none
  | n + 1 => some (next_result_loc (ip_state n))

/-- The destination scratchpad chosen by call number `n` (0-indexed). -/
def ip_result_loc (n : Nat) : spad_id :=
  next_result_loc (ip_state n)

/-- The `(local_activations, local_result)` scratchpads passed to
`inner_product_layer_hw` by the two `INVOKE_KERNEL` branches of
`inner_product_layer` (smiv.c:105-113): when the result goes to `spad0` the
activations live in `spad1`, and conversely. -/
def ip_invoke_spads (current_result_loc : spad_id) : spad_id × spad_id :=
  match current_result_loc with
  | .spad0 => (.spad1, .spad0)
  | .spad1 => (.spad0, .spad1)

/-- The memory regions `inner_product_layer_hw` reads and writes, with the
stored data abstracted to a type `D` (the numeric kernels are external). -/
structure ip_mem (D : Type) where
  host_activations : D
  host_weights : D
  host_result : D
  local_activations : D
  local_weights : D
  local_result : D

/-- `inner_product_layer_hw` (smiv.c:54-79) as a transformer of `ip_mem`:
always `dmaLoad` the weights; `grab_input_activations_dma` only when the
layer's `needs_input_dma_load` is set; run the fused matrix-multiply
(abstracted as `matmul`, which receives the `run_activation` flag computed
from the layer's activation); `store_output_activations_dma` only when
`needs_output_dma_store` is set. -/
def inner_product_layer_hw {D : Type} (matmul : D → D → Bool → D)
    (l : layer_t) (m : ip_mem D) : ip_mem D :=
  let run_activation := l.activation != activation_type.NONE
  let m1 := { m with local_weights := m.host_weights }
  let m2 := if l.needs_input_dma_load then
              { m1 with local_activations := m1.host_activations }
            else m1
  let m3 := { m2 with
              local_result := matmul m2.local_activations m2.local_weights
                                run_activation }
  if l.needs_output_dma_store then { m3 with host_result := m3.local_result }
  else m3

/-- The two host-visible buffers handed to `convolution_layer`. -/
inductive host_buf
  | activations
  | result
deriving DecidableEq

/-- The buffer roles chosen by one call to `convolution_layer`:
where `copy_zeropad` writes (if at all), which buffer is passed to
`convolution_runner` as the input activations, which receives the computed
output, and which is returned as the layer's result location. -/
structure conv_layer_plan where
  zeropad_dest : Option host_buf
  runner_input : host_buf
  runner_output : host_buf
  returned : host_buf
deriving DecidableEq

/-- `convolution_layer` (smiv.c:335-366) at the buffer-role level: with
positive zero-padding it zero-pads `activations` into `result`, runs the
convolution from `result` into `activations` and returns `activations`;
otherwise it runs from `activations` into `result` and returns `result`. -/
def convolution_layer (l : layer_t) : conv_layer_plan :=
  if l.c_padding > 0 then
    { zeropad_dest := some host_buf.result
      runner_input := host_buf.result
      runner_output := host_buf.activations
      returned := host_buf.activations }
  else
    { zeropad_dest := none
      runner_input := host_buf.activations
      runner_output := host_buf.result
      returned := host_buf.result }

/-- A convolution layer whose unreduced output needs channel tiling (two
unreduced channels fit one scratchpad, five input channels) and whose
single-image input fits the UMEM. -/
def tiling_layer : layer_t :=
  { type := .CONV
    activation := .RELU
    input_preprocessing := .NO_PREPROCESSING
    pool := .MAX_POOL
    inputs := { rows := 8, cols := 8, height := 5, align_pad := 0 }
    outputs := { rows := 128, cols := 128, height := 2, align_pad := 0 }
    weights := { rows := 3, cols := 3, height := 5, align_pad := 0 }
    c_padding := 0
    needs_input_dma_load := true
    needs_output_dma_store := true
    result_in_temp := false }

/-- The iteration plan `convolution_divide_work` produces for
`tiling_layer`: channel counts 2, 2, 1. -/
def tiling_cfg : conv_cfg_t :=
  { iteration := [⟨8, 8, 2, 0⟩, ⟨8, 8, 2, 0⟩, ⟨8, 8, 1, 0⟩] }

/-- The event trace of one (image, kernel) pass over `tiling_layer`. -/
def tiling_trace : List conv_event :=
  ((conv_kernel_pass tiling_layer tiling_cfg).toOption).getD []

/-- The transient descriptor of `tiling_layer`'s first iteration. -/
def tiling_partial0 : layer_t :=
  make_partial_layer tiling_layer 3 ⟨8, 8, 2, 0⟩

/-- A layer satisfying the tiling branch's own preconditions (unreduced
output too big for one scratchpad, two unreduced channels fit) whose
single-image input nevertheless exceeds the UMEM. -/
def oversized_input_layer : layer_t :=
  { tiling_layer with
    inputs := { rows := 1024, cols := 1024, height := 3, align_pad := 0 }
    weights := { rows := 3, cols := 3, height := 3, align_pad := 0 } }

/-- A layer whose whole unreduced output fits one scratchpad. -/
def single_iteration_layer : layer_t :=
  { tiling_layer with
    inputs := { rows := 8, cols := 8, height := 4, align_pad := 0 }
    outputs := { rows := 8, cols := 8, height := 2, align_pad := 0 }
    weights := { rows := 3, cols := 3, height := 4, align_pad := 0 } }

/-- Depth-3 example network: conv, then pooling, then a final inner-product
layer. -/
def conv_layer_ex : layer_t :=
  { tiling_layer with type := .CONV }

/-- The pooling layer of the depth-3 example network. -/
def pool_layer_ex : layer_t :=
  { tiling_layer with type := .POOLING, activation := .NONE }

/-- The final inner-product layer of the depth-3 example network. -/
def fc_layer_ex : layer_t :=
  { tiling_layer with type := .FC, activation := .NONE }

/-- The depth-3 example network of the spec's concrete DMA scenario. -/
def example_net3 : List layer_t :=
  [conv_layer_ex, pool_layer_ex, fc_layer_ex]

lemma tiling_loop_length (l : layer_t) (maxch : Nat) :
    ∀ n total, (tiling_loop l maxch n total).length = n := by
  intro n
  induction n with
  | zero => intro total; rfl
  | succ m ih => intro total; simp [tiling_loop, ih]

lemma tiling_loop_sum (l : layer_t) (maxch : Nat) :
    ∀ n total, total ≤ n * maxch → n * maxch < total + maxch →
      ((tiling_loop l maxch n total).map dims_t.height).sum = total := by
  intro n
  induction n with
  | zero => intro total h1 h2; simp [tiling_loop]; omega
  | succ m ih =>
      intro total h1 h2
      rw [Nat.succ_mul] at h1 h2
      simp only [tiling_loop, List.map_cons, List.sum_cons]
      rw [ih (total - maxch) (by omega) (by omega)]
      omega

lemma tiling_loop_height_le (l : layer_t) (maxch : Nat) :
    ∀ n total d, d ∈ tiling_loop l maxch n total → d.height ≤ maxch := by
  intro n
  induction n with
  | zero => intro total d hd; simp [tiling_loop] at hd
  | succ m ih =>
      intro total d hd
      simp only [tiling_loop, List.mem_cons] at hd
      rcases hd with h | h
      · subst h; exact Nat.min_le_right _ _
      · exact ih _ _ h

lemma tiling_loop_dropLast (l : layer_t) (maxch : Nat) :
    ∀ n total, n * maxch < total + maxch →
      ∀ d ∈ (tiling_loop l maxch n total).dropLast, d.height = maxch := by
  intro n
  induction n with
  | zero => intro total _ d hd; simp [tiling_loop] at hd
  | succ m ih =>
      intro total h2 d hd
      rw [Nat.succ_mul] at h2
      match m, ih with
      | 0, _ => simp [tiling_loop] at hd
      | k + 1, ih =>
          rw [tiling_loop] at hd
          rw [List.dropLast_cons_of_ne_nil (by
            have hl := tiling_loop_length l maxch (k + 1) (total - maxch)
            intro hnil
            rw [hnil] at hl
            simp at hl)] at hd
          simp only [List.mem_cons] at hd
          have hk : maxch ≤ (k + 1) * maxch := Nat.le_mul_of_pos_left maxch (by omega)
          rcases hd with h | h
          · subst h
            show min total maxch = maxch
            have : maxch ≤ total := by omega
            omega
          · exact ih (total - maxch) (by omega) d h

lemma ceil_div_mul_bounds (total maxch : Nat) (hm : 1 ≤ maxch) :
    total ≤ ((total + maxch - 1) / maxch) * maxch ∧
    ((total + maxch - 1) / maxch) * maxch < total + maxch := by
  have hd := Nat.div_add_mod (total + maxch - 1) maxch
  have hr : (total + maxch - 1) % maxch < maxch :=
    Nat.mod_lt _ (by omega)
  rw [Nat.mul_comm] at hd
  omega

/-- C1 (amended): for every layer whose single-image input footprint fits the
UMEM, whose per-kernel unreduced-output footprint exceeds the scratch
capacity, and whose `maxChannelsPerIteration = SPAD_SIZE / perChannelFootprint`
is at least 2, `convolution_divide_work` returns exactly
`ceil(totalInputChannels / maxChannelsPerIteration)` iterations whose channel
counts sum to the layer's total input channel count, each at most
`maxChannelsPerIteration`, and all but possibly the last equal to it. -/
theorem convolution_divide_work_tiling (l : layer_t)
    (hin : total_input_bytes l ≤ UMEM_SIZE)
    (hout : SPAD_SIZE < total_output_bytes l)
    (hmax : 2 ≤ max_channels_per_iter l) :
    ∃ cfg, convolution_divide_work l = Except.ok cfg ∧
      cfg.iteration.length =
        (l.inputs.height + max_channels_per_iter l - 1) /
          max_channels_per_iter l ∧
      (cfg.iteration.map dims_t.height).sum = l.inputs.height ∧
      (∀ d ∈ cfg.iteration, d.height ≤ max_channels_per_iter l) ∧
      (∀ d ∈ cfg.iteration.dropLast, d.height = max_channels_per_iter l) := by
  have hb := ceil_div_mul_bounds l.inputs.height (max_channels_per_iter l)
    (by omega)
  have hcfg : convolution_divide_work l =
      Except.ok { iteration := tiling_loop l (max_channels_per_iter l)
                    (num_tiling_iterations l) l.inputs.height } := by
    unfold convolution_divide_work
    rw [if_neg (by omega), if_neg (by omega), if_pos hmax]
  exact ⟨_, hcfg, tiling_loop_length l _ _ _,
    tiling_loop_sum l _ _ _ hb.1 hb.2,
    fun d hd => tiling_loop_height_le l _ _ _ d hd,
    tiling_loop_dropLast l _ _ _ hb.2⟩

/-- Witness for C1's amended theorem at `tiling_layer`. -/
theorem convolution_divide_work_tiling_witness :
    ∃ cfg, convolution_divide_work tiling_layer = Except.ok cfg ∧
      cfg.iteration.length =
        (tiling_layer.inputs.height + max_channels_per_iter tiling_layer - 1) /
          max_channels_per_iter tiling_layer ∧
      (cfg.iteration.map dims_t.height).sum = tiling_layer.inputs.height ∧
      (∀ d ∈ cfg.iteration, d.height ≤ max_channels_per_iter tiling_layer) ∧
      (∀ d ∈ cfg.iteration.dropLast,
        d.height = max_channels_per_iter tiling_layer) :=
  convolution_divide_work_tiling tiling_layer (by decide) (by decide)
    (by decide)

/-- C1 counterexample: `oversized_input_layer` satisfies the claim's stated
preconditions (unreduced output exceeds a scratchpad, at least two channels
fit per iteration, here exactly 2 with 3 input channels), yet
`convolution_divide_work` reports the UMEM-overflow configuration error
instead of returning a 2-iteration plan, because the single-image input
footprint is checked against the UMEM first. -/
theorem convolution_divide_work_tiling_counterexample :
    SPAD_SIZE < total_output_bytes oversized_input_layer ∧
    2 ≤ max_channels_per_iter oversized_input_layer ∧
    UMEM_SIZE < total_input_bytes oversized_input_layer ∧
    convolution_divide_work oversized_input_layer =
      Except.error config_error.UmemOverflow := by
  refine ⟨by decide, by decide, by decide, ?_⟩
  unfold convolution_divide_work
  rw [if_pos (by decide)]

/-- C6: for every layer whose single-image input fits the UMEM and whose
per-kernel unreduced-output footprint fits one scratchpad,
`convolution_divide_work` returns exactly one iteration covering the full
input channel count at the layer's input rows and cols. -/
theorem convolution_divide_work_single (l : layer_t)
    (hin : total_input_bytes l ≤ UMEM_SIZE)
    (hout : total_output_bytes l ≤ SPAD_SIZE) :
    ∃ cfg, convolution_divide_work l = Except.ok cfg ∧
      cfg.iteration.length = 1 ∧
      ∀ d ∈ cfg.iteration,
        d.height = l.inputs.height ∧ d.rows = l.inputs.rows ∧
        d.cols = l.inputs.cols := by
  have hcfg : convolution_divide_work l =
      Except.ok { iteration := [{ rows := l.inputs.rows
                                  cols := l.inputs.cols
                                  height := l.inputs.height
                                  align_pad := calc_padding l.inputs.cols
                                                 DATA_ALIGNMENT }] } := by
    unfold convolution_divide_work
    rw [if_neg (by omega), if_pos hout]
  refine ⟨_, hcfg, rfl, ?_⟩
  intro d hd
  simp only [List.mem_singleton] at hd
  subst hd
  exact ⟨rfl, rfl, rfl⟩

/-- Witness for C6 at `single_iteration_layer`. -/
theorem convolution_divide_work_single_witness :
    ∃ cfg, convolution_divide_work single_iteration_layer = Except.ok cfg ∧
      cfg.iteration.length = 1 ∧
      ∀ d ∈ cfg.iteration,
        d.height = single_iteration_layer.inputs.height ∧
        d.rows = single_iteration_layer.inputs.rows ∧
        d.cols = single_iteration_layer.inputs.cols :=
  convolution_divide_work_single single_iteration_layer (by decide) (by decide)

/-- C3: `convolution_divide_work` fails with a configuration error exactly
when the single-image input footprint exceeds the UMEM capacity or the
unreduced per-kernel output does not fit one scratchpad while fewer than two
unreduced channels fit per iteration; the UMEM check comes first (when it
fires, the reported error is the UMEM overflow); in every other case a plan
is returned (the function is pure, so it has no other effect). -/
theorem convolution_divide_work_error_iff (l : layer_t) :
    ((∃ e, convolution_divide_work l = Except.error e) ↔
        (UMEM_SIZE < total_input_bytes l ∨
          (SPAD_SIZE < total_output_bytes l ∧ max_channels_per_iter l < 2))) ∧
    (UMEM_SIZE < total_input_bytes l →
        convolution_divide_work l = Except.error config_error.UmemOverflow) := by
  constructor
  · constructor
    · rintro ⟨e, he⟩
      unfold convolution_divide_work at he
      split_ifs at he with h1 h2 h3
      · exact Or.inl h1
      · exact Or.inr ⟨by omega, by omega⟩
    · intro h
      unfold convolution_divide_work
      rcases h with h1 | ⟨h2, h3⟩
      · rw [if_pos h1]
        exact ⟨_, rfl⟩
      · by_cases h1 : total_input_bytes l > UMEM_SIZE
        · rw [if_pos h1]
          exact ⟨_, rfl⟩
        · rw [if_neg h1, if_neg (by omega), if_neg (by omega)]
          exact ⟨_, rfl⟩
  · intro h1
    unfold convolution_divide_work
    rw [if_pos h1]

lemma set_dma_go_length (depth : Nat) :
    ∀ xs i p, (set_dma_go depth i p xs).length = xs.length := by
  intro xs
  induction xs with
  | nil => intro i p; rfl
  | cons x rest ih =>
      intro i p
      rw [set_dma_go]
      by_cases h : (i == 0) = true
      · rw [if_pos h]; simp [ih]
      · rw [if_neg h]; simp [ih]

lemma set_dma_go_store (depth : Nat) :
    ∀ xs i p j, 1 ≤ i + j → j < xs.length →
      (set_dma_go depth i p xs)[j]?.map layer_t.needs_output_dma_store =
        xs[j]?.map (fun x => needs_output_dma depth (i + j) x xs[j + 1]?) := by
  intro xs
  induction xs with
  | nil => intro i p j h1 h2; simp at h2
  | cons x rest ih =>
      intro i p j h1 h2
      match j with
      | 0 =>
          have hi : ¬ (i == 0) = true := by simp; omega
          rw [set_dma_go, if_neg hi]
          rcases rest with _ | ⟨y, ys⟩ <;> simp
      | k + 1 =>
          have hk : k < rest.length := by
            simp only [List.length_cons] at h2; omega
          rw [set_dma_go]
          by_cases hi : (i == 0) = true
          · rw [if_pos hi]
            simp only [List.getElem?_cons_succ]
            rw [ih (i + 1) true k (by omega) hk]
            have h3 : i + 1 + k = i + (k + 1) := by omega
            rw [h3]
          · rw [if_neg hi]
            simp only [List.getElem?_cons_succ]
            rw [ih (i + 1) _ k (by omega) hk]
            have h3 : i + 1 + k = i + (k + 1) := by omega
            rw [h3]

lemma set_dma_go_chain (depth : Nat) :
    ∀ xs i p j, j + 1 < xs.length →
      (set_dma_go depth i p xs)[j + 1]?.map layer_t.needs_input_dma_load =
        (set_dma_go depth i p xs)[j]?.map layer_t.needs_output_dma_store := by
  intro xs
  induction xs with
  | nil => intro i p j h; simp at h
  | cons x rest ih =>
      intro i p j h
      match j with
      | 0 =>
          rcases rest with _ | ⟨y, ys⟩
          · simp at h
          · rw [set_dma_go]
            by_cases hi : (i == 0) = true
            · rw [if_pos hi]
              simp only [List.getElem?_cons_succ, List.getElem?_cons_zero,
                Option.map_some']
              rw [set_dma_go, if_neg (by simp)]
              simp
            · rw [if_neg hi]
              simp only [List.getElem?_cons_succ, List.getElem?_cons_zero,
                Option.map_some']
              rw [set_dma_go, if_neg (by simp)]
              simp
      | k + 1 =>
          have hk : k + 1 < rest.length := by
            simp only [List.length_cons] at h; omega
          rw [set_dma_go]
          by_cases hi : (i == 0) = true
          · rw [if_pos hi]
            simp only [List.getElem?_cons_succ]
            exact ih (i + 1) true k hk
          · rw [if_neg hi]
            simp only [List.getElem?_cons_succ]
            exact ih (i + 1) _ k hk

/-- C2: after `set_dma_requirements` on a network of depth at least 1, layer 0
never loads its input and always stores its output, every later layer loads
its input exactly when its predecessor stored its output, and the last layer
always stores its output. -/
theorem set_dma_requirements_flags (net : List layer_t) (hne : 1 ≤ net.length) :
    ((set_dma_requirements net)[0]?.map layer_t.needs_input_dma_load =
        some false) ∧
    ((set_dma_requirements net)[0]?.map layer_t.needs_output_dma_store =
        some true) ∧
    (∀ i, i + 1 < net.length →
      (set_dma_requirements net)[i + 1]?.map layer_t.needs_input_dma_load =
        (set_dma_requirements net)[i]?.map layer_t.needs_output_dma_store) ∧
    ((set_dma_requirements net)[net.length - 1]?.map
        layer_t.needs_output_dma_store = some true) := by
  obtain ⟨x, rest, rfl⟩ : ∃ x rest, net = x :: rest := by
    rcases net with _ | ⟨x, rest⟩
    · simp at hne
    · exact ⟨x, rest, rfl⟩
  refine ⟨?_, ?_, ?_, ?_⟩
  · rw [set_dma_requirements, set_dma_go, if_pos (by simp)]
    simp
  · rw [set_dma_requirements, set_dma_go, if_pos (by simp)]
    simp
  · intro i hi
    rw [set_dma_requirements]
    exact set_dma_go_chain (x :: rest).length (x :: rest) 0 false i hi
  · rcases rest with _ | ⟨y, ys⟩
    · rw [set_dma_requirements, set_dma_go, if_pos (by simp)]
      simp
    · have hlen : (x :: y :: ys).length - 1 = ys.length + 1 := by simp
      rw [set_dma_requirements, hlen,
        set_dma_go_store (x :: y :: ys).length (x :: y :: ys) 0 false
          (ys.length + 1) (by omega) (by simp)]
      have hidx : ys.length + 1 < (x :: y :: ys).length := by simp
      rw [List.getElem?_eq_getElem hidx]
      simp [needs_output_dma]

/-- Witness for C2 at the depth-3 example network. -/
theorem set_dma_requirements_flags_witness :
    ((set_dma_requirements example_net3)[0]?.map layer_t.needs_input_dma_load =
        some false) ∧
    ((set_dma_requirements example_net3)[0]?.map
        layer_t.needs_output_dma_store = some true) ∧
    (∀ i, i + 1 < example_net3.length →
      (set_dma_requirements example_net3)[i + 1]?.map
          layer_t.needs_input_dma_load =
        (set_dma_requirements example_net3)[i]?.map
          layer_t.needs_output_dma_store) ∧
    ((set_dma_requirements example_net3)[example_net3.length - 1]?.map
        layer_t.needs_output_dma_store = some true) :=
  set_dma_requirements_flags example_net3 (by decide)

/-- C5: for every interior layer (index strictly between 0 and depth - 1),
`set_dma_requirements` sets `needs_output_dma_store` to true exactly when the
layer's activation is `SIGMOID`, its type is pooling or convolution, its
input preprocessing is flattening, or the next layer is a pooling or softmax
layer. -/
theorem set_dma_requirements_middle_store (net : List layer_t) (i : Nat)
    (li ln : layer_t) (h0 : 0 < i) (h1 : i + 1 < net.length)
    (hi : net[i]? = some li) (hn : net[i + 1]? = some ln) :
    (set_dma_requirements net)[i]?.map layer_t.needs_output_dma_store =
      some (li.activation == activation_type.SIGMOID ||
            li.type == layer_type.POOLING ||
            li.type == layer_type.CONV ||
            li.input_preprocessing == input_pp.FLATTEN ||
            (ln.type == layer_type.POOLING ||
             ln.type == layer_type.SOFTMAX)) := by
  rw [set_dma_requirements,
    set_dma_go_store net.length net 0 false i (by omega) (by omega),
    hi, hn]
  simp only [Option.map_some', needs_output_dma, Option.some.injEq]
  have hne : (0 + i == net.length - 1) = false := by
    rw [beq_eq_false_iff_ne]
    omega
  rw [hne]
  simp

/-- Witness for C5: the depth-3 conv, pooling, inner-product network yields
output transfers `[true, true, true]` and input transfers
`[false, true, true]`, and the middle (pooling) layer's flag matches the
stated rule. -/
theorem set_dma_requirements_middle_store_witness :
    ((set_dma_requirements example_net3).map layer_t.needs_output_dma_store =
        [true, true, true]) ∧
    ((set_dma_requirements example_net3).map layer_t.needs_input_dma_load =
        [false, true, true]) ∧
    (set_dma_requirements example_net3)[1]?.map
        layer_t.needs_output_dma_store =
      some (pool_layer_ex.activation == activation_type.SIGMOID ||
            pool_layer_ex.type == layer_type.POOLING ||
            pool_layer_ex.type == layer_type.CONV ||
            pool_layer_ex.input_preprocessing == input_pp.FLATTEN ||
            (fc_layer_ex.type == layer_type.POOLING ||
             fc_layer_ex.type == layer_type.SOFTMAX)) :=
  ⟨by decide, by decide,
    set_dma_requirements_middle_store example_net3 1 pool_layer_ex fc_layer_ex
      (by decide) (by decide) (by decide) (by decide)⟩

lemma conv_iter_loop_no_final (curr : layer_t) (n : Nat) :
    ∀ cfgs start pl,
      conv_event.FinalReduce pl ∉ conv_iter_loop curr n start cfgs := by
  intro cfgs
  induction cfgs with
  | nil => intro start pl h; simp [conv_iter_loop] at h
  | cons d rest ih =>
      intro start pl h
      rw [conv_iter_loop] at h
      simp only [List.mem_cons] at h
      rcases h with h | h | h
      · simp at h
      · simp at h
      · exact ih (start + d.height) pl h

lemma conv_iter_loop_conv_invoke (curr : layer_t) (n : Nat) :
    ∀ cfgs start pl sc,
      conv_event.ConvInvoke pl sc ∈ conv_iter_loop curr n start cfgs →
      ∃ d ∈ cfgs, pl = make_partial_layer curr n d := by
  intro cfgs
  induction cfgs with
  | nil => intro start pl sc h; simp [conv_iter_loop] at h
  | cons d rest ih =>
      intro start pl sc h
      rw [conv_iter_loop] at h
      simp only [List.mem_cons] at h
      rcases h with h | h | h
      · simp only [conv_event.ConvInvoke.injEq] at h
        exact ⟨d, List.mem_cons_self d rest, h.1⟩
      · simp at h
      · obtain ⟨e, he, hpl⟩ := ih (start + d.height) pl sc h
        exact ⟨e, List.mem_cons_of_mem d he, hpl⟩

lemma conv_kernel_pass_conv_invoke (l : layer_t) (cfg : conv_cfg_t)
    (tr : List conv_event) (pl : layer_t) (sc : Nat)
    (htr : conv_kernel_pass l cfg = Except.ok tr)
    (hev : conv_event.ConvInvoke pl sc ∈ tr) :
    conv_event.ConvInvoke pl sc ∈
      conv_iter_loop l cfg.iteration.length 0 cfg.iteration := by
  simp only [conv_kernel_pass] at htr
  split_ifs at htr with h1 h2
  · simp only [Except.ok.injEq] at htr
    subst htr
    simp at hev
    exact hev
  · simp only [Except.ok.injEq] at htr
    subst htr
    simp at hev
    exact hev

/-- C4: for a plan produced by `convolution_divide_work`, a final reduction
round appears in a successful per-(image, kernel) pass exactly when the plan
has more than one iteration; and when the plan has more than one iteration
but the per-iteration partial results would need more than one final
reduction round, the pass aborts with the fatal configuration error instead
of producing a trace. -/
theorem conv_final_reduction (l : layer_t) (cfg : conv_cfg_t)
    (_hcfg : convolution_divide_work l = Except.ok cfg) :
    (∀ tr, conv_kernel_pass l cfg = Except.ok tr →
        ((∃ pl, conv_event.FinalReduce pl ∈ tr) ↔
          1 < cfg.iteration.length)) ∧
    (1 < cfg.iteration.length →
      1 < final_result_iters l cfg.iteration.length →
        conv_kernel_pass l cfg =
          Except.error config_error.MultiRoundReduction) := by
  constructor
  · intro tr htr
    simp only [conv_kernel_pass] at htr
    split_ifs at htr with h1 h2
    · simp only [Except.ok.injEq] at htr
      subst htr
      constructor
      · intro _
        exact h1
      · intro _
        have h2' : final_result_iters l cfg.iteration.length = 1 := by
          simpa using h2
        refine ⟨final_reduce_layer l cfg.iteration.length, ?_⟩
        rw [h2']
        simp
    · simp only [Except.ok.injEq] at htr
      subst htr
      constructor
      · rintro ⟨pl, hpl⟩
        simp only [List.mem_append, List.mem_singleton] at hpl
        rcases hpl with hpl | hpl
        · exact absurd hpl
            (conv_iter_loop_no_final l cfg.iteration.length cfg.iteration 0 pl)
        · simp at hpl
      · intro hgt
        omega
  · intro hn hri
    simp only [conv_kernel_pass]
    rw [if_pos hn, if_neg (by simp only [beq_iff_eq]; omega)]

/-- Witness for C4 at `tiling_layer` with its 3-iteration plan. -/
theorem conv_final_reduction_witness :
    (∀ tr, conv_kernel_pass tiling_layer tiling_cfg = Except.ok tr →
        ((∃ pl, conv_event.FinalReduce pl ∈ tr) ↔
          1 < tiling_cfg.iteration.length)) ∧
    (1 < tiling_cfg.iteration.length →
      1 < final_result_iters tiling_layer tiling_cfg.iteration.length →
        conv_kernel_pass tiling_layer tiling_cfg =
          Except.error config_error.MultiRoundReduction) :=
  conv_final_reduction tiling_layer tiling_cfg (by decide)

/-- C7: every transient partial-layer descriptor handed to the convolution
compute kernel during a successful pass over a plan produced by
`convolution_divide_work` is the full layer with its input, output, and
weight channel counts replaced by that iteration's channel count, its other
shape fields unchanged, and its activation kept exactly when the plan has one
iteration (suppressed to `NONE` otherwise). -/
theorem conv_partial_layer (l : layer_t) (cfg : conv_cfg_t)
    (tr : List conv_event) (pl : layer_t) (sc : Nat)
    (_hcfg : convolution_divide_work l = Except.ok cfg)
    (htr : conv_kernel_pass l cfg = Except.ok tr)
    (hev : conv_event.ConvInvoke pl sc ∈ tr) :
    ∃ d ∈ cfg.iteration,
      pl = make_partial_layer l cfg.iteration.length d ∧
      pl.inputs.height = d.height ∧
      pl.outputs.height = d.height ∧
      pl.weights.height = d.height ∧
      pl.inputs.rows = l.inputs.rows ∧ pl.inputs.cols = l.inputs.cols ∧
      pl.inputs.align_pad = l.inputs.align_pad ∧
      pl.outputs.rows = l.outputs.rows ∧ pl.outputs.cols = l.outputs.cols ∧
      pl.outputs.align_pad = l.outputs.align_pad ∧
      pl.weights.rows = l.weights.rows ∧ pl.weights.cols = l.weights.cols ∧
      pl.weights.align_pad = l.weights.align_pad ∧
      pl.type = l.type ∧ pl.c_padding = l.c_padding ∧
      (cfg.iteration.length = 1 → pl.activation = l.activation) ∧
      (1 < cfg.iteration.length → pl.activation = activation_type.NONE) := by
  have hin := conv_kernel_pass_conv_invoke l cfg tr pl sc htr hev
  obtain ⟨d, hd, hpl⟩ :=
    conv_iter_loop_conv_invoke l cfg.iteration.length cfg.iteration 0 pl sc hin
  subst hpl
  refine ⟨d, hd, rfl, rfl, rfl, rfl, rfl, rfl, rfl, rfl, rfl, rfl, rfl, rfl,
    rfl, rfl, rfl, ?_, ?_⟩
  · intro h
    simp [make_partial_layer, h]
  · intro h
    have hne : (cfg.iteration.length == 1) = false := by
      rw [beq_eq_false_iff_ne]
      omega
    simp [make_partial_layer, hne]

/-- Witness for C7: the first iteration of `tiling_layer`'s plan. -/
theorem conv_partial_layer_witness :
    ∃ d ∈ tiling_cfg.iteration,
      tiling_partial0 = make_partial_layer tiling_layer
        tiling_cfg.iteration.length d ∧
      tiling_partial0.inputs.height = d.height ∧
      tiling_partial0.outputs.height = d.height ∧
      tiling_partial0.weights.height = d.height ∧
      tiling_partial0.inputs.rows = tiling_layer.inputs.rows ∧
      tiling_partial0.inputs.cols = tiling_layer.inputs.cols ∧
      tiling_partial0.inputs.align_pad = tiling_layer.inputs.align_pad ∧
      tiling_partial0.outputs.rows = tiling_layer.outputs.rows ∧
      tiling_partial0.outputs.cols = tiling_layer.outputs.cols ∧
      tiling_partial0.outputs.align_pad = tiling_layer.outputs.align_pad ∧
      tiling_partial0.weights.rows = tiling_layer.weights.rows ∧
      tiling_partial0.weights.cols = tiling_layer.weights.cols ∧
      tiling_partial0.weights.align_pad = tiling_layer.weights.align_pad ∧
      tiling_partial0.type = tiling_layer.type ∧
      tiling_partial0.c_padding = tiling_layer.c_padding ∧
      (tiling_cfg.iteration.length = 1 →
        tiling_partial0.activation = tiling_layer.activation) ∧
      (1 < tiling_cfg.iteration.length →
        tiling_partial0.activation = activation_type.NONE) :=
  conv_partial_layer tiling_layer tiling_cfg tiling_trace tiling_partial0 0
    (by decide) (by decide) (by decide)

lemma ip_result_loc_parity :
    ∀ n, ip_result_loc n =
      (if n % 2 = 0 then spad_id.spad1 else spad_id.spad0) := by
  intro n
  induction n with
  | zero => rfl
  | succ m ih =>
      rcases Nat.mod_two_eq_zero_or_one m with h | h
      · have hm : (m + 1) % 2 = 1 := by omega
        rw [show ip_result_loc (m + 1) =
              next_result_loc (some (ip_result_loc m)) from rfl, ih, h, hm]
        simp [next_result_loc]
      · have hm : (m + 1) % 2 = 0 := by omega
        rw [show ip_result_loc (m + 1) =
              next_result_loc (some (ip_result_loc m)) from rfl, ih, h, hm]
        simp [next_result_loc]

/-- C8: the inner-product result scratchpad starts unset, is `spad1` on the
first call, flips on every subsequent call (so it is `spad1` on
even-numbered 0-indexed calls and `spad0` on odd ones, independent of any
layer's tiling), and the activation scratchpad handed to the kernel is always
the other scratchpad. -/
theorem inner_product_ping_pong (n : Nat) :
    ip_state 0 = none ∧
    ip_state (n + 1) = some (ip_result_loc n) ∧
    ip_result_loc n = (if n % 2 = 0 then spad_id.spad1 else spad_id.spad0) ∧
    ip_result_loc (n + 1) ≠ ip_result_loc n ∧
    (ip_invoke_spads (ip_result_loc n)).1 ≠
      (ip_invoke_spads (ip_result_loc n)).2 := by
  refine ⟨rfl, rfl, ip_result_loc_parity n, ?_, ?_⟩
  · rw [ip_result_loc_parity n, ip_result_loc_parity (n + 1)]
    rcases Nat.mod_two_eq_zero_or_one n with h | h
    · have hm : (n + 1) % 2 = 1 := by omega
      rw [h, hm]
      decide
    · have hm : (n + 1) % 2 = 0 := by omega
      rw [h, hm]
      decide
  · rw [ip_result_loc_parity n]
    rcases Nat.mod_two_eq_zero_or_one n with h | h <;> rw [h] <;> decide

/-- C9: in every invocation of the inner-product kernel the weights are
always loaded into local memory, the activations are loaded exactly when the
layer's `needs_input_dma_load` flag is set, and the result is stored back to
the host exactly when `needs_output_dma_store` is set — in particular, when
that flag is clear the host result is left untouched. -/
theorem inner_product_layer_hw_transfers {D : Type} (matmul : D → D → Bool → D)
    (l : layer_t) (m : ip_mem D) :
    (inner_product_layer_hw matmul l m).local_weights = m.host_weights ∧
    (inner_product_layer_hw matmul l m).local_activations =
      (if l.needs_input_dma_load then m.host_activations
       else m.local_activations) ∧
    (inner_product_layer_hw matmul l m).local_result =
      matmul (if l.needs_input_dma_load then m.host_activations
              else m.local_activations)
        m.host_weights (l.activation != activation_type.NONE) ∧
    (inner_product_layer_hw matmul l m).host_result =
      (if l.needs_output_dma_store then
        (inner_product_layer_hw matmul l m).local_result
       else m.host_result) ∧
    (l.needs_output_dma_store = false →
      (inner_product_layer_hw matmul l m).host_result = m.host_result) ∧
    (inner_product_layer_hw matmul l m).host_activations =
      m.host_activations ∧
    (inner_product_layer_hw matmul l m).host_weights = m.host_weights := by
  cases h1 : l.needs_input_dma_load <;>
    cases h2 : l.needs_output_dma_store <;>
      simp [inner_product_layer_hw, h1, h2]

/-- C10: `convolution_layer` returns the buffer the convolution's output was
computed into; with positive zero-padding it zero-pads into the caller's
result buffer, computes into the caller's activations buffer and returns it,
and with zero padding it computes into and returns the caller's result
buffer. -/
theorem convolution_layer_buffer_roles (l : layer_t) :
    ((convolution_layer l).returned = (convolution_layer l).runner_output) ∧
    (0 < l.c_padding →
      (convolution_layer l).zeropad_dest = some host_buf.result ∧
      (convolution_layer l).runner_input = host_buf.result ∧
      (convolution_layer l).runner_output = host_buf.activations ∧
      (convolution_layer l).returned = host_buf.activations) ∧
    (l.c_padding = 0 →
      (convolution_layer l).zeropad_dest = none ∧
      (convolution_layer l).runner_input = host_buf.activations ∧
      (convolution_layer l).runner_output = host_buf.result ∧
      (convolution_layer l).returned = host_buf.result) := by
  by_cases h : 0 < l.c_padding <;>
    simp [convolution_layer, h] <;>
    omega
